import Mathlib

/-!
# Verification of the PROJECT-GENESIS agent simulation core

Shallow embedding of the repository's core (src/person.py, src/world.py,
src/main.py) into Lean 4.  Python floats are modelled as rationals (`ℚ`);
all randomness (the global seeded `random` generator) is threaded
explicitly as input data, in the fixed order the source consumes it.

The module `constants.py` is imported by the sources but is not part of
src/; where a numeric constant is needed it is modelled from the spec
(doc comments below say so), and where possible the development is kept
parametric in the missing value.
-/

/- The Batteries rational-number operations are marked `irreducible`,
which stops `decide` from evaluating concrete simulation states.  All
definitions below are executable; restoring the default reducibility
lets witnesses and counterexamples be checked by `decide`. -/
set_option allowUnsafeReducibility true
attribute [semireducible] Rat.add Rat.sub Rat.mul Rat.div Rat.inv Rat.ofScientific

namespace Genesis

/-- Modelled from the spec: `MAX_STAT` lives in the missing `constants.py`;
the spec clamps every vital stat to `[0, 100]`, so `MAX_STAT = 100`. -/
def MAX_STAT : ℚ := 100

/-- Modelled from the spec: `MAX_HEALTH` lives in the missing `constants.py`;
the spec says health is "separately capped" without fixing a different
value, so we take the common stat bound 100.  No claim below depends on
the numeric value of this cap. -/
def MAX_HEALTH : ℚ := 100

/-- Python's binary `min` (kernel-reducible; provably equal to `min`). -/
def rmin (a b : ℚ) : ℚ := if a ≤ b then a else b

/-- Python's binary `max` (kernel-reducible; provably equal to `max`). -/
def rmax (a b : ℚ) : ℚ := if a ≤ b then b else a

/-- Python's `abs` (kernel-reducible; provably equal to `|·|`). -/
def rabs (a : ℚ) : ℚ := rmax a (-a)

/-- `person.clamp(value, lo, hi) = max(lo, min(hi, value))`.  The Python
defaults (`lo = 0.0`, `hi = MAX_STAT`) are always written out explicitly
at call sites below. -/
def clamp (value lo hi : ℚ) : ℚ := rmax lo (rmin hi value)

/-- The state-action key of `main._state_key`: agent position, the two
stat buckets (sustenance above 50, reputation above 50) and the action
code. -/
abbrev StateKey := (ℤ × ℤ) × Bool × Bool × ℕ

/-- One agent (`person.Person`).  The `uuid4` field `id` of the Python
class is never read anywhere in the repository and is omitted; all other
attributes are carried over.  The value memory `action_utility_tracker`
(a Python dict) is an association list. -/
structure Person where
  name : String
  gender : String
  ageYears : ℤ
  isAlive : Bool
  turnsSurvived : ℕ
  health : ℚ
  sustenance : ℚ
  mood : ℚ
  selfConfidence : ℚ
  reputation : ℚ
  personalGoal : String
  TiR_score : ℚ
  relationshipStatus : String
  partnerName : Option String
  progenyCount : ℕ
  position : ℤ × ℤ
  lastAction : String
  tracker : List (StateKey × ℚ)
  memoryCap : ℕ
  wSustenance : ℚ
  wGoalProgress : ℚ
  wSocialBond : ℚ
  wPurposeGoal : ℚ
deriving DecidableEq, Repr

/-- `Person.__init__`: the constructor with its default vital stats
(health `MAX_HEALTH`, sustenance `MAX_STAT`, mood 80, self-confidence 70,
reputation 50) and utility weights. -/
def Person.init (name gender : String) (ageYears : ℤ) (startPos : ℤ × ℤ)
    (relationshipStatus personalGoal : String) (tir : ℚ) (memoryCap : ℕ) : Person :=
  { name := name
    gender := gender
    ageYears := ageYears
    isAlive := true
    turnsSurvived := 0
    health := MAX_HEALTH
    sustenance := MAX_STAT
    mood := 80
    selfConfidence := 70
    reputation := 50
    personalGoal := personalGoal
    TiR_score := tir
    relationshipStatus := relationshipStatus
    partnerName := none
    progenyCount := 0
    position := startPos
    lastAction := "Initialize"
    tracker := []
    memoryCap := memoryCap
    wSustenance := 1
    wGoalProgress := 0.5
    wSocialBond := 0.5
    wPurposeGoal := 0.2 }

def defaultPerson : Person :=
  Person.init "" "" 0 (0, 0) "Single" "Acquire Wealth and Status" 50 500

instance : Inhabited Person := ⟨defaultPerson⟩

/-- `dict.get(key, 10.0)` on the value memory: unseen keys default to the
optimistic initial value 10.0. -/
def trackerGet (t : List (StateKey × ℚ)) (k : StateKey) : ℚ :=
  (t.lookup k).getD 10

/-- Dict assignment `tracker[key] = v` (overwrite). -/
def trackerSet (t : List (StateKey × ℚ)) (k : StateKey) (v : ℚ) : List (StateKey × ℚ) :=
  (k, v) :: t.filter (fun kv => !(kv.1 == k))

/-- `Person.get_exploration_rate`. -/
def Person.get_exploration_rate (p : Person) : ℚ :=
  clamp (1 - p.selfConfidence / MAX_STAT) 0 1

/-- `Person.get_health_decay_rate`. -/
def Person.get_health_decay_rate (p : Person) : ℚ :=
  if 60 < p.ageYears then 0.05 + ((p.ageYears : ℚ) - 60) * 0.02 else 0.05

/-- `Person._prune_memory`: Python samples `remove_count` random keys and
deletes them; the random sample is the explicit `evict` input here. -/
def Person.pruneMemory (p : Person) (evict : List StateKey) : Person :=
  if p.memoryCap < p.tracker.length then
    { p with tracker := p.tracker.filter (fun kv => !(evict.contains kv.1)) }
  else p

/-- `Person.apply_aging_and_decay`: per-turn decay, death check, turn
counter, yearly age-up with memory pruning, defensive re-clamping.
Returns the mutated person together with the Python return value
(`True` iff the agent died).  The Python `current_cycle` parameter is
unused by the body and omitted. -/
def Person.apply_aging_and_decay (p : Person) (evict : List StateKey) : Person × Bool :=
  let p := { p with
    health := clamp (p.health - p.get_health_decay_rate) 0 MAX_HEALTH
    sustenance := clamp (p.sustenance - 0.005) 0 MAX_STAT }
  if p.health ≤ 0 ∨ p.sustenance ≤ 0 then
    ({ p with isAlive := false }, true)
  else
    let p := { p with turnsSurvived := p.turnsSurvived + 1 }
    let p :=
      if p.turnsSurvived % 365 = 0 then
        Person.pruneMemory { p with ageYears := p.ageYears + 1 } evict
      else p
    ({ p with
        mood := clamp p.mood 0 MAX_STAT
        selfConfidence := clamp p.selfConfidence 0 MAX_STAT
        reputation := clamp p.reputation 0 MAX_STAT }, false)

/-- `Person.grieve_loss`: the trauma penalty is 40 (plus the `Grieving`
transition, cleared partner and recovery goal) when the deceased was the
bonded partner, else 15; mood and health then drop by the penalty and
half of it respectively.  Returns the mutated survivor and the penalty. -/
def Person.grieve_loss (p : Person) (deceased : Person) : Person × ℚ :=
  if p.partnerName = some deceased.name then
    let p := { p with
      relationshipStatus := "Grieving"
      partnerName := none
      personalGoal := "Recovery and Solitude" }
    ({ p with
        mood := clamp (p.mood - 40) 0 MAX_STAT
        health := clamp (p.health - 20) 0 MAX_HEALTH }, 40)
  else
    ({ p with
        mood := clamp (p.mood - 15) 0 MAX_STAT
        health := clamp (p.health - 7.5) 0 MAX_HEALTH }, 15)

/-- `Person.share_belief`: shifts the target's TiR score toward the
actor's, scaled by the actor's reputation; only the target is mutated.
Returns the mutated target and the reward (`5 × |shift|` when the shift
is significant, else 0). -/
def Person.share_belief (p : Person) (target : Person) : Person × ℚ :=
  let beliefDiff := p.TiR_score - target.TiR_score
  let influenceFactor := (p.reputation + 50) / 100
  let changeAmount := beliefDiff * 0.15 * influenceFactor
  let target := { target with TiR_score := clamp (target.TiR_score + changeAmount) 0 100 }
  if 2 < rabs changeAmount then (target, rabs changeAmount * 5) else (target, 0)

/-- `Person.create_child` (with the default `max_health_cap = MAX_HEALTH`):
the randomly drawn child name, gender and goal are explicit inputs.
Returns the child and the parent with its progeny count bumped. -/
def Person.create_child (p : Person) (partner : Person)
    (childName childGender childGoal : String) : Person × Person :=
  let childTir := (p.TiR_score + partner.TiR_score) / 2
  let initialHealth := rmax 0 (MAX_HEALTH + (p.reputation + partner.reputation) / 5)
  let initialHealth := rmin initialHealth MAX_HEALTH
  let child :=
    { Person.init childName childGender 0 p.position "Dependent" childGoal childTir p.memoryCap with
      health := clamp initialHealth 0 MAX_HEALTH
      sustenance := clamp initialHealth 0 MAX_HEALTH }
  (child, { p with progenyCount := p.progenyCount + 1 })

/-! ## The world engine (src/world.py) -/

/-- `world.World`.  The Python instance stores the grid size, the current
resource level, the market position, the maximum pool level and the
regeneration rate; the numeric defaults (`GRID_SIZE`, `THE_MARKET`,
`RESOURCE_MAX`, `MARKET_REGENERATION_RATE`) live in the missing
`constants.py`, so the development stays parametric in them. -/
structure World where
  gridSize : ℤ
  resourceLevel : ℚ
  marketPos : ℤ × ℤ
  resourceMax : ℚ
  marketRegen : ℚ
deriving DecidableEq, Repr

/-- `World.__init__` as it is used by the simulation (`World()`): the
initial resource level equals the maximum. -/
def World.init (gridSize : ℤ) (marketPos : ℤ × ℤ) (resourceMax marketRegen : ℚ) : World :=
  { gridSize := gridSize
    resourceLevel := resourceMax
    marketPos := marketPos
    resourceMax := resourceMax
    marketRegen := marketRegen }

/-- The action table has codes 0..12; `get_random_action` picks one
uniformly.  The random draw is modelled as an arbitrary natural reduced
into the key range. -/
def getRandomAction (draw : ℕ) : ℕ := draw % 13

/-- Result of `World.process_action`: the mutated acting agent, the
(possibly mutated) target, the mutated world, and the returned pair
`(is_exited, delta_U)`. -/
structure ActionResult where
  agent : Person
  other : Option Person
  world : World
  isExited : Bool
  deltaU : ℚ
deriving DecidableEq, Repr

/-- The unconditional per-call base cost at the top of
`World.process_action`: sustenance −0.5, health −0.02. -/
def Person.baseTurnCost (agent : Person) : Person :=
  { agent with
    sustenance := clamp (agent.sustenance - 0.5) 0 MAX_STAT
    health := clamp (agent.health - 0.02) 0 MAX_HEALTH }

/-- The defensive re-clamping at the bottom of `World.process_action`. -/
def Person.finalClamps (agent : Person) : Person :=
  { agent with
    health := clamp agent.health 0 MAX_HEALTH
    sustenance := clamp agent.sustenance 0 MAX_STAT
    mood := clamp agent.mood 0 MAX_STAT
    reputation := clamp agent.reputation 0 MAX_STAT
    selfConfidence := clamp agent.selfConfidence 0 MAX_STAT }

/-- The mutually exclusive branch of `World.process_action` on the
action code (`agent` is the actor after the base per-turn cost). -/
def World.processActionCore (w : World) (exitDraw : ℚ) (agent : Person)
    (other : Option Person) (code : ℕ) : ActionResult :=
  if code ≤ 3 then
      let x := agent.position.1
      let y := agent.position.2
      let pos : ℤ × ℤ :=
        if code = 0 then (x, y + 1)
        else if code = 1 then (x, y - 1)
        else if code = 2 then (x + 1, y)
        else (x - 1, y)
      if 0 ≤ pos.1 ∧ pos.1 < w.gridSize ∧ 0 ≤ pos.2 ∧ pos.2 < w.gridSize then
        ⟨{ agent with position := pos }, other, w, false, 1⟩
      else
        ⟨agent, other, w, false, -5⟩
    else if code = 4 then
      if agent.position = w.marketPos ∧ 50 ≤ w.resourceLevel then
        ⟨{ agent with
            sustenance := clamp (agent.sustenance + 65) 0 MAX_STAT
            health := clamp (agent.health + 8) 0 MAX_HEALTH
            reputation := clamp (agent.reputation + 5) 0 MAX_STAT },
          other, { w with resourceLevel := w.resourceLevel - 50 }, false, 70⟩
      else
        ⟨{ agent with sustenance := clamp (agent.sustenance - 10) 0 MAX_STAT },
          other, w, false, -15⟩
    else if code = 5 then
      ⟨{ agent with
          health := clamp (agent.health + 8) 0 MAX_HEALTH
          sustenance := clamp (agent.sustenance + 15) 0 MAX_STAT
          mood := clamp (agent.mood + 5) 0 MAX_STAT },
        other, w, false, 20⟩
    else if 6 ≤ code ∧ code ≤ 10 then
      ⟨agent, other, w, false, 10⟩
    else if code = 11 then
      match other with
      | some o =>
        if agent.position = o.position then
          let sr := Person.share_belief agent o
          ⟨agent, some sr.1, w, false, sr.2⟩
        else ⟨agent, other, w, false, 0⟩
      | none => ⟨agent, other, w, false, 0⟩
    else if code = 12 then
      let agent := { agent with
        sustenance := clamp (agent.sustenance - 50) 0 MAX_STAT
        health := clamp (agent.health - 10) 0 MAX_HEALTH }
      if agent.TiR_score < 10 ∧ exitDraw < 0.05 then
        ⟨agent, other, w, true, 1000⟩
      else
        ⟨{ agent with mood := clamp (agent.mood - 25) 0 MAX_STAT }, other, w, false, -100⟩
    else
      ⟨agent, other, w, false, 0⟩

/-- `World.process_action`.  The single `random.random()` the body can
consume (the stochastic exit gate) is the explicit `exitDraw` input.
The `new_children` side channel is only logged to in the source and is
omitted.  Structure mirrors the Python body: base per-turn cost, the
mutually exclusive branch on the action code (`processActionCore`), then
the end-of-call regeneration and defensive re-clamping. -/
def World.processAction (w : World) (exitDraw : ℚ) (agent : Person)
    (other : Option Person) (code : ℕ) : ActionResult :=
  let r := w.processActionCore exitDraw agent.baseTurnCost other code
  let w' := { r.world with
    resourceLevel := clamp (r.world.resourceLevel + r.world.marketRegen) 0 r.world.resourceMax }
  ⟨r.agent.finalClamps, r.other, w', r.isExited, r.deltaU⟩

/-! ## The decision policy (src/main.py) -/

/-- `main._state_key(agent, action_code)`. -/
def stateKey (a : Person) (act : ℕ) : StateKey :=
  (a.position, decide (50 < a.sustenance), decide (50 < a.reputation), act)

/-- The random draws one agent's turn can consume, in the order the
source draws them.  `targetIdx` models `random.choice(others)`,
`exploreDraw` the exploration gate's `random.random()`, `exploreAction`
the random action of pure exploration, `sampleActions` (reduced mod 13,
first five) the `random.sample` of candidate actions, `exitDraw` the
stochastic exit gate, `childName`/`childGender`/`childGoal` the child
constructor's draws, and `evict` the memory-pruning sample. -/
structure AgentRand where
  targetIdx : ℕ
  exploreDraw : ℚ
  exploreAction : ℕ
  sampleActions : List ℕ
  exitDraw : ℚ
  childName : String
  childGender : String
  childGoal : String
  evict : List StateKey
deriving DecidableEq, Repr

def defaultRand : AgentRand :=
  { targetIdx := 0, exploreDraw := 1, exploreAction := 0, sampleActions := []
    exitDraw := 1, childName := "", childGender := "", childGoal := "", evict := [] }

instance : Inhabited AgentRand := ⟨defaultRand⟩

/-- The candidate interaction targets of `decide_action`: every index of
a *different* agent whose status is not `Dependent`, in population
order. -/
def othersIdx (i : ℕ) (pop : List Person) : List ℕ :=
  (List.range pop.length).filter
    (fun j => (j != i) && ((pop.getD j defaultPerson).relationshipStatus != "Dependent"))

/-- `random.choice(others)` (when `others` is nonempty), with the draw
reduced into range. -/
def pickTarget (tDraw : ℕ) (others : List ℕ) : Option ℕ :=
  if others.length = 0 then none
  else some (others.getD (tDraw % others.length) 0)

/-- The composite exploitation score of one candidate action in
`decide_action`: learned value (default 10), survival modifier, and the
purpose bonus for the exit action under the exit-seeking goal. -/
def actionUtility (a : Person) (act : ℕ) : ℚ :=
  trackerGet a.tracker (stateKey a act)
    + (100 - a.sustenance) * a.wSustenance
    + (if a.personalGoal = "Discover the World's True Limits" ∧ act = 12 then
        a.wPurposeGoal * 100 else 0)

/-- The exploitation loop of `decide_action`: keep the candidate with the
strictly highest utility, first seen wins ties. -/
def chooseBest (a : Person) (acts : List ℕ) : Option ℕ :=
  (acts.foldl
    (fun best act =>
      match best with
      | none => some (act, actionUtility a act)
      | some bu => if bu.2 < actionUtility a act then some (act, actionUtility a act) else some bu)
    none).map (·.1)

/-- `main.decide_action(agent, population)` for the agent at index `i`.
Returns the chosen action code and the optional target index. -/
def decide_action (r : AgentRand) (a : Person) (pop : List Person) (i : ℕ) : ℕ × Option ℕ :=
  let target := pickTarget r.targetIdx (othersIdx i pop)
  if r.exploreDraw < a.get_exploration_rate then
    (getRandomAction r.exploreAction, target)
  else
    let sample := (r.sampleActions.map (· % 13)).take 5
    ((chooseBest a sample).getD (getRandomAction r.exploreAction), target)

/-! ## The turn orchestrator (`Simulation.step` in src/main.py)

Python mutates `Person` objects in place while iterating a frozen
snapshot `list(self.agents)`; the list itself does not change length
during the sweep (births are accumulated in `new_children`, removals in
`agents_to_remove` and applied afterwards).  We model object identity by
list index: the sweep threads a population list of fixed length, and
`agents_to_remove` is a list of indices. -/

/-- The state threaded through one tick's per-agent sweep. -/
structure SweepState where
  pop : List Person
  world : World
  toRemove : List ℕ
  newChildren : List Person
  exited : List Person
deriving DecidableEq, Repr

/-- The `(action, target)` chosen for the (already decayed) agent `a` at
index `i`: Python calls `decide_action(agent, self.agents)` after the
in-place decay, so the population seen is the sweep population with `a`
written back at `i`. -/
def chosenOf (r : AgentRand) (st : SweepState) (i : ℕ) (a : Person) : ℕ × Option ℕ :=
  decide_action r a (st.pop.set i a) i

/-- Dereference the target index picked by the decision policy. -/
def targetOf (st : SweepState) (i : ℕ) (a : Person) (tIdx : Option ℕ) : Option Person :=
  tIdx.map (fun j => (st.pop.set i a).getD j defaultPerson)

/-- The environment's `process_action` call made for the agent at `i`. -/
def outcomeOf (r : AgentRand) (st : SweepState) (i : ℕ) (a : Person) : ActionResult :=
  st.world.processAction r.exitDraw a
    (targetOf st i a (chosenOf r st i a).2) (chosenOf r st i a).1

/-- Write the mutated actor (and, when a target was passed, the mutated
target) back into the population. -/
def writeBack (pop : List Person) (i : ℕ) (tIdx : Option ℕ) (res : ActionResult) : List Person :=
  let pop1 := pop.set i res.agent
  match tIdx, res.other with
  | some j, some o => pop1.set j o
  | _, _ => pop1

/-- The orchestrator's Q update: `alpha = 0.5`,
`new_Q = cur_Q + alpha * (delta_U - cur_Q)`. -/
def qUpdate (curQ deltaU : ℚ) : ℚ := curQ + 0.5 * (deltaU - curQ)

/-- The acting agent after the Q update, which reads the tracker at the
state-action key computed before the action was resolved. -/
def qUpdatedAgent (a : Person) (action : ℕ) (res : ActionResult) : Person :=
  { res.agent with
    tracker := trackerSet res.agent.tracker (stateKey a action)
      (qUpdate (trackerGet res.agent.tracker (stateKey a action)) res.deltaU) }

/-- The ideological shock fired when the agent at index `i` exits: every
other agent with `TiR_score < 50` gets maximal self-confidence and loses
20 TiR (floored at zero). -/
def shockOthers (i : ℕ) (pop : List Person) : List Person :=
  (List.range pop.length).map (fun j =>
    let p := pop.getD j defaultPerson
    if j ≠ i ∧ p.TiR_score < 50 then
      { p with selfConfidence := 100, TiR_score := rmax 0 (p.TiR_score - 20) }
    else p)

/-- The reproduction tail of the loop body: `if action == 10 and target
is not None`, create a child from the agent's and target's current
states and queue it. -/
def reproStep (r : AgentRand) (st : SweepState) (i : ℕ) (action : ℕ)
    (tIdx : Option ℕ) : SweepState :=
  match tIdx with
  | some j =>
    if action = 10 then
      let pr := Person.create_child (st.pop.getD i defaultPerson) (st.pop.getD j defaultPerson)
        r.childName r.childGender r.childGoal
      { st with pop := st.pop.set i pr.2, newChildren := st.newChildren ++ [pr.1] }
    else st
  | none => st

/-- The loop body for an agent that acts this tick (`a` is the agent
after `apply_aging_and_decay`): decision, environment call, Q update,
possible exit bookkeeping with ideological shock, possible
reproduction. -/
def actingStep (r : AgentRand) (st : SweepState) (i : ℕ) (a : Person) : SweepState :=
  let action := (chosenOf r st i a).1
  let tIdx := (chosenOf r st i a).2
  let res := outcomeOf r st i a
  let pop2 := writeBack (st.pop.set i a) i tIdx res
  let aQ := qUpdatedAgent a action res
  let pop3 := pop2.set i aQ
  let st4 : SweepState :=
    if res.isExited then
      ⟨shockOthers i pop3, res.world, st.toRemove ++ [i], st.newChildren, st.exited ++ [aQ]⟩
    else
      ⟨pop3, res.world, st.toRemove, st.newChildren, st.exited⟩
  reproStep r st4 i action tIdx

/-- The loop body for a `Dependent` agent: bump `turns_survived` and
mature to `Single` with age 10 once the threshold `cpd`
(`CYCLES_PER_DEPENDENT_YEAR`, a constant of the missing `constants.py`)
is reached; no decision-policy or environment call is made. -/
def matureStep (cpd : ℕ) (a : Person) : Person :=
  let a1 := { a with turnsSurvived := a.turnsSurvived + 1 }
  if cpd ≤ a1.turnsSurvived then
    { a1 with relationshipStatus := "Single", ageYears := 10 }
  else a1

def dependentStep (cpd : ℕ) (st : SweepState) (i : ℕ) (a : Person) : SweepState :=
  { st with pop := st.pop.set i (matureStep cpd a) }

/-- One iteration of the per-agent sweep of `Simulation.step`. -/
def processIdx (cpd : ℕ) (r : AgentRand) (st : SweepState) (i : ℕ) : SweepState :=
  let agent := st.pop.getD i defaultPerson
  if agent.relationshipStatus = "Dependent" then
    dependentStep cpd st i agent
  else
    let ad := agent.apply_aging_and_decay r.evict
    if ad.2 then
      { st with pop := st.pop.set i ad.1, toRemove := st.toRemove ++ [i] }
    else
      actingStep r st i ad.1

/-- One round of the post-sweep grief loop: every agent that is not
itself being removed grieves for the deceased at index `d`. -/
def grieveRound (toRemove : List ℕ) (pop : List Person) (d : ℕ) : List Person :=
  (List.range pop.length).map (fun j =>
    if toRemove.contains j then pop.getD j defaultPerson
    else (Person.grieve_loss (pop.getD j defaultPerson) (pop.getD d defaultPerson)).1)

/-- The post-sweep grief loop: `for deceased in agents_to_remove: for
survivor in [a for a in self.agents if a is not deceased and a not in
agents_to_remove]: survivor.grieve_loss(deceased)`. -/
def grieveAll (toRemove : List ℕ) (pop : List Person) : List Person :=
  toRemove.foldl (grieveRound toRemove) pop

/-- Remove the agents queued in `agents_to_remove` from the population,
preserving order. -/
def removeIdxs (toRemove : List ℕ) (pop : List Person) : List Person :=
  ((List.range pop.length).filter (fun j => !(toRemove.contains j))).map
    (fun j => pop.getD j defaultPerson)

/-- One per-tick snapshot record appended to `self.metrics`. -/
structure Metric where
  tick : ℕ
  population : ℕ
  exited : ℕ
  resourceLevel : ℚ
  avgTiR : ℚ
deriving DecidableEq, Repr

/-- The whole simulation state of `Simulation`. -/
structure SimState where
  world : World
  agents : List Person
  globalClock : ℕ
  exitLog : List Person
  metrics : List Metric
deriving DecidableEq, Repr

/-- The per-agent sweep of one tick, folded over the frozen index
snapshot; `rs` supplies the random draws, indexed by agent position. -/
def sweepOf (cpd : ℕ) (rs : List AgentRand) (s : SimState) : SweepState :=
  (List.range s.agents.length).foldl
    (fun st i => processIdx cpd (rs.getD i defaultRand) st i)
    ⟨s.agents, s.world, [], [], []⟩

/-- `Simulation.step`: advance the clock, sweep all agents, apply grief,
remove the dead and exited, append the newborn children, and record the
per-tick metrics snapshot (tick, population size, cumulative exits,
resource level, mean TiR). -/
def step (cpd : ℕ) (rs : List AgentRand) (s : SimState) : SimState :=
  let clock := s.globalClock + 1
  let sw := sweepOf cpd rs s
  let popG := grieveAll sw.toRemove sw.pop
  let agents' := removeIdxs sw.toRemove popG ++ sw.newChildren
  let exitLog' := s.exitLog ++ sw.exited
  let m : Metric :=
    { tick := clock
      population := agents'.length
      exited := exitLog'.length
      resourceLevel := sw.world.resourceLevel
      avgTiR := if agents'.length = 0 then 0
                else (agents'.map Person.TiR_score).sum / (agents'.length : ℚ) }
  { world := sw.world
    agents := agents'
    globalClock := clock
    exitLog := exitLog'
    metrics := s.metrics ++ [m] }

/-- The initial population built by `Simulation.__init__`. -/
def initialAgents : List Person :=
  [Person.init "Leo" "Male" 25 (1, 1) "Single" "Acquire Wealth and Status" 85 500,
   Person.init "Clara" "Female" 22 (9, 9) "Single" "Find Love and a Partner" 60 500,
   Person.init "Elara" "Female" 30 (5, 5) "Single" "Discover the World's True Limits" 5 500]

/-- `Simulation.__init__`: fresh world, the three initial agents, clock
zero, empty exit log and metrics.  Seeding the global generator is
modelled by the explicit random streams fed to `runSim`. -/
def simInit (w : World) : SimState :=
  { world := w, agents := initialAgents, globalClock := 0, exitLog := [], metrics := [] }

/-- `Simulation.run` restricted to the core (`turns` calls of `step`);
`rss` supplies the per-tick random draws, the deterministic image of the
one seed given to `random.seed`. -/
def runSim (cpd : ℕ) (rss : List (List AgentRand)) (turns : ℕ) (s : SimState) : SimState :=
  (List.range turns).foldl (fun s t => step cpd (rss.getD t []) s) s

/-! ## Verification-layer definitions -/

/-- The spec's world invariant: `0 ≤ resource_level ≤ resource_max`. -/
def worldInv (w : World) : Prop := 0 ≤ w.resourceLevel ∧ w.resourceLevel ≤ w.resourceMax

/-- The inputs of one `process_action` call, for reasoning about call
sequences. -/
structure CallIn where
  draw : ℚ
  agent : Person
  other : Option Person
  code : ℕ

/-- Fold a sequence of `process_action` calls over a world. -/
def runCalls (w : World) (calls : List CallIn) : World :=
  calls.foldl (fun w c => (w.processAction c.draw c.agent c.other c.code).world) w

/-- The death condition of `apply_aging_and_decay`: health or sustenance
is at zero once the per-turn decay is applied. -/
def decayDies (p : Person) : Bool :=
  decide (clamp (p.health - p.get_health_decay_rate) 0 MAX_HEALTH ≤ 0
    ∨ clamp (p.sustenance - 0.005) 0 MAX_STAT ≤ 0)

/-- The fields that decide whether an agent acts or dies this tick; the
in-sweep mutations of *other* agents (belief sharing, ideological shock)
never touch them. -/
def vitalView (p : Person) : ℚ × ℚ × ℤ × String :=
  (p.health, p.sustenance, p.ageYears, p.relationshipStatus)

/-- Whether this tick's sweep queues the agent for removal by death:
it is non-`Dependent` and the per-turn decay kills it. -/
def removesAt (p : Person) : Bool :=
  (p.relationshipStatus != "Dependent") && decayDies p

/-! ## Concrete fixtures (for witnesses and counterexamples) -/

def wFix : World := World.init 10 (5, 5) 100 10

/-- A world whose pool is empty, to observe regeneration directly. -/
def wLow : World :=
  { gridSize := 10, resourceLevel := 0, marketPos := (5, 5), resourceMax := 100, marketRegen := 10 }

def pA : Person := Person.init "A" "Male" 25 (1, 1) "Single" "Acquire Wealth and Status" 85 500

def pB : Person := Person.init "B" "Female" 22 (2, 2) "Single" "Find Love and a Partner" 60 500

def pDep : Person := Person.init "D" "Female" 0 (3, 3) "Dependent" "Find Love and a Partner" 50 500

def pLow : Person := Person.init "E" "Female" 30 (5, 5) "Single" "Discover the World's True Limits" 5 500

/-- An agent whose health is exhausted by the next per-turn decay. -/
def pDead : Person := { pA with name := "F", health := 0.01 }

/-- Random draws that force pure exploration with the given action. -/
def rExplore (act : ℕ) : AgentRand :=
  { targetIdx := 0, exploreDraw := 0, exploreAction := act, sampleActions := []
    exitDraw := 1, childName := "", childGender := "", childGoal := "", evict := [] }

/-- Exploration draws for the exit action with a passing exit gate. -/
def rExit : AgentRand := { rExplore 12 with exitDraw := 0 }

def sC1 : SimState :=
  { world := wLow, agents := [pA, pB], globalClock := 0, exitLog := [], metrics := [] }

/-- A survivor bonded to the dying agent `pDead` (named "F"). -/
def pPartner : Person := { pA with name := "P", partnerName := some "F" }

def sDead : SimState :=
  { world := wFix, agents := [pDead, pA], globalClock := 0, exitLog := [], metrics := [] }

/-- A second agent that dies of decay in the same tick as `pDead`. -/
def pDead2 : Person := { pB with name := "G", health := 0.01 }

/-- A tick with two simultaneous decay deaths (indices 0 and 2). -/
def sDead2 : SimState :=
  { world := wFix, agents := [pDead, pA, pDead2], globalClock := 0, exitLog := [],
    metrics := [] }

def sExit : SimState :=
  { world := wFix, agents := [pLow, pA], globalClock := 0, exitLog := [], metrics := [] }

/-! ## Basic lemmas -/

theorem rmin_eq (a b : ℚ) : rmin a b = min a b := (min_def a b).symm

theorem rmax_eq (a b : ℚ) : rmax a b = max a b := by
  unfold rmax
  rcases le_total a b with h | h
  · rw [if_pos h, max_eq_right h]
  · rcases lt_or_eq_of_le h with h' | h'
    · rw [if_neg (not_le.mpr h'), max_eq_left h]
    · simp [h']

theorem rabs_eq (a : ℚ) : rabs a = |a| := by
  rw [rabs, rmax_eq]; exact (abs_eq_max_neg).symm

theorem clamp_eq (value lo hi : ℚ) : clamp value lo hi = max lo (min hi value) := by
  rw [clamp, rmax_eq, rmin_eq]

theorem le_clamp (value lo hi : ℚ) : lo ≤ clamp value lo hi := by
  rw [clamp_eq]; exact le_max_left _ _

theorem clamp_le (value lo hi : ℚ) (h : lo ≤ hi) : clamp value lo hi ≤ hi := by
  rw [clamp_eq]; exact max_le h (min_le_left _ _)

theorem clamp_of_mem (value lo hi : ℚ) (h1 : lo ≤ value) (h2 : value ≤ hi) :
    clamp value lo hi = value := by
  rw [clamp_eq, min_eq_right h2, max_eq_right h1]

/-- The action branch touches the world only in the successful market
case, where it deducts exactly 50. -/
theorem processActionCore_world (w : World) (d : ℚ) (a : Person) (o : Option Person) (c : ℕ) :
    (w.processActionCore d a o c).world =
      (if c = 4 ∧ a.position = w.marketPos ∧ 50 ≤ w.resourceLevel then
        { w with resourceLevel := w.resourceLevel - 50 } else w) := by
  rcases Nat.lt_or_ge c 13 with hc | hc
  · interval_cases c <;>
      · rcases o with _ | o <;>
          · simp only [World.processActionCore]
            first
              | (norm_num; done)
              | (norm_num; split_ifs <;> simp_all)
              | (split_ifs <;> simp_all)
  · have h4 : c ≠ 4 := by omega
    simp only [World.processActionCore]
    rw [if_neg (by omega), if_neg h4, if_neg (by omega), if_neg (by omega),
      if_neg (by omega), if_neg (by omega)]
    simp [h4]

/-- The same for the exit flag: only a code-12 call with low alignment
and a passing draw sets it. -/
theorem processActionCore_isExited (w : World) (d : ℚ) (a : Person) (o : Option Person) (c : ℕ) :
    (w.processActionCore d a o c).isExited =
      decide (c = 12 ∧ a.TiR_score < 10 ∧ d < 0.05) := by
  rcases Nat.lt_or_ge c 13 with hc | hc
  · interval_cases c <;>
      · rcases o with _ | o <;>
          · simp only [World.processActionCore]
            first
              | (norm_num; done)
              | (norm_num; split_ifs <;> simp_all)
              | (split_ifs <;> simp_all)
  · have h12 : c ≠ 12 := by omega
    simp only [World.processActionCore]
    rw [if_neg (by omega), if_neg (by omega), if_neg (by omega), if_neg (by omega),
      if_neg (by omega), if_neg h12]
    simp [h12]

/-- `process_action` applies the regeneration step exactly once, at the
end of the call, on top of the (possible) market deduction; grid size,
market position, maximum and rate are untouched. -/
theorem processAction_world (w : World) (d : ℚ) (a : Person) (o : Option Person) (c : ℕ) :
    (w.processAction d a o c).world =
      { w with resourceLevel :=
          clamp ((if c = 4 ∧ a.position = w.marketPos ∧ 50 ≤ w.resourceLevel then
                    w.resourceLevel - 50 else w.resourceLevel) + w.marketRegen) 0 w.resourceMax } := by
  unfold World.processAction
  dsimp only
  rw [processActionCore_world]
  have hpos : a.baseTurnCost.position = a.position := rfl
  rw [hpos]
  split_ifs <;> rfl

theorem processAction_isExited (w : World) (d : ℚ) (a : Person) (o : Option Person) (c : ℕ) :
    (w.processAction d a o c).isExited = (w.processActionCore d a.baseTurnCost o c).isExited := rfl

theorem processAction_deltaU (w : World) (d : ℚ) (a : Person) (o : Option Person) (c : ℕ) :
    (w.processAction d a o c).deltaU = (w.processActionCore d a.baseTurnCost o c).deltaU := rfl

theorem processAction_agent (w : World) (d : ℚ) (a : Person) (o : Option Person) (c : ℕ) :
    (w.processAction d a o c).agent = (w.processActionCore d a.baseTurnCost o c).agent.finalClamps :=
  rfl

theorem processAction_other (w : World) (d : ℚ) (a : Person) (o : Option Person) (c : ℕ) :
    (w.processAction d a o c).other = (w.processActionCore d a.baseTurnCost o c).other := rfl

theorem baseTurnCost_TiR (a : Person) : a.baseTurnCost.TiR_score = a.TiR_score := rfl

/-! ## C2: the resource-pool invariant -/

theorem processAction_inv (w : World) (d : ℚ) (a : Person) (o : Option Person) (c : ℕ)
    (h : 0 ≤ w.resourceMax) : worldInv (w.processAction d a o c).world := by
  rw [worldInv, processAction_world]
  exact ⟨le_clamp _ _ _, clamp_le _ _ _ h⟩

theorem processAction_resourceMax (w : World) (d : ℚ) (a : Person) (o : Option Person) (c : ℕ) :
    (w.processAction d a o c).world.resourceMax = w.resourceMax := by
  rw [processAction_world]

theorem runCalls_inv (calls : List CallIn) :
    ∀ w : World, 0 ≤ w.resourceMax → worldInv w → worldInv (runCalls w calls) := by
  induction calls with
  | nil => exact fun w _ h => h
  | cons c cs ih =>
    intro w hM hw
    have hstep : worldInv (w.processAction c.draw c.agent c.other c.code).world :=
      processAction_inv w c.draw c.agent c.other c.code hM
    have hmax : (w.processAction c.draw c.agent c.other c.code).world.resourceMax =
        w.resourceMax := processAction_resourceMax w c.draw c.agent c.other c.code
    exact ih _ (hmax ▸ hM) hstep

/-- C2: for every world reachable from the initial one (pool full at a
nonnegative maximum) by any sequence of `process_action` calls — market
visits and regenerations included — the shared resource level satisfies
`0 ≤ resource_level ≤ resource_max` after each call. -/
theorem C2_resource_pool_invariant (gs : ℤ) (mp : ℤ × ℤ) (M regen : ℚ)
    (calls : List CallIn) (hM : 0 ≤ M) :
    worldInv (runCalls (World.init gs mp M regen) calls) :=
  runCalls_inv calls (World.init gs mp M regen) hM ⟨hM, le_refl M⟩

theorem C2_witness :
    worldInv (runCalls (World.init 10 (5, 5) 100 10) [⟨1, pLow, none, 4⟩, ⟨1, pA, none, 7⟩]) :=
  C2_resource_pool_invariant 10 (5, 5) 100 10 [⟨1, pLow, none, 4⟩, ⟨1, pA, none, 7⟩]
    (by norm_num)

/-! ## C1: regeneration is once per `process_action` call, not once per tick -/

/-- C1, counterexample: a tick of `sC1` in which both (non-`Dependent`,
surviving) agents explore the rest action applies the regeneration step
twice — the final pool level is two clamped regeneration applications,
not one, so "applied exactly once per tick regardless of how many agents
acted" fails at this input. -/
theorem C1_counterexample :
    (step 365 [rExplore 5, rExplore 5] sC1).world.resourceLevel =
        clamp (clamp (sC1.world.resourceLevel + sC1.world.marketRegen) 0 sC1.world.resourceMax
          + sC1.world.marketRegen) 0 sC1.world.resourceMax
    ∧ (step 365 [rExplore 5, rExplore 5] sC1).world.resourceLevel ≠
        clamp (sC1.world.resourceLevel + sC1.world.marketRegen) 0 sC1.world.resourceMax := by
  decide

/-- C1 (amended): the regeneration step (add the rate, clamp into
`[0, resource_max]`) is applied exactly once per `process_action` call —
hence once per agent that acts during a tick, not once per tick.  Agents
that do not act (`Dependent` agents and agents dying during decay) leave
the world untouched. -/
theorem C1_regen_once_per_call :
    (∀ (w : World) (d : ℚ) (a : Person) (o : Option Person) (c : ℕ),
      (w.processAction d a o c).world.resourceLevel =
        clamp ((if c = 4 ∧ a.position = w.marketPos ∧ 50 ≤ w.resourceLevel then
          w.resourceLevel - 50 else w.resourceLevel) + w.marketRegen) 0 w.resourceMax)
    ∧ (∀ (cpd : ℕ) (r : AgentRand) (st : SweepState) (i : ℕ),
        (st.pop.getD i defaultPerson).relationshipStatus = "Dependent" →
        (processIdx cpd r st i).world = st.world)
    ∧ (∀ (cpd : ℕ) (r : AgentRand) (st : SweepState) (i : ℕ),
        (st.pop.getD i defaultPerson).relationshipStatus ≠ "Dependent" →
        ((st.pop.getD i defaultPerson).apply_aging_and_decay r.evict).2 = true →
        (processIdx cpd r st i).world = st.world) := by
  refine ⟨fun w d a o c => ?_, fun cpd r st i h => ?_, fun cpd r st i h hdie => ?_⟩
  · rw [processAction_world]
  · unfold processIdx
    rw [if_pos h]
    rfl
  · unfold processIdx
    rw [if_neg h]
    dsimp only
    rw [if_pos hdie]

theorem C1_regen_once_per_call_witness :
    ((wFix.processAction 1 pA none 5).world.resourceLevel =
      clamp ((if (5 : ℕ) = 4 ∧ pA.position = wFix.marketPos ∧ 50 ≤ wFix.resourceLevel then
        wFix.resourceLevel - 50 else wFix.resourceLevel) + wFix.marketRegen) 0 wFix.resourceMax)
    ∧ (processIdx 365 (rExplore 5) ⟨[pDep], wFix, [], [], []⟩ 0).world = wFix
    ∧ (processIdx 365 (rExplore 5) ⟨[pDead], wFix, [], [], []⟩ 0).world = wFix :=
  ⟨C1_regen_once_per_call.1 wFix 1 pA none 5,
   C1_regen_once_per_call.2.1 365 (rExplore 5) ⟨[pDep], wFix, [], [], []⟩ 0 (by decide),
   C1_regen_once_per_call.2.2 365 (rExplore 5) ⟨[pDead], wFix, [], [], []⟩ 0 (by decide)
     (by decide)⟩

/-! ## C3: an exit attempt with alignment ≥ 10 never succeeds -/

theorem processActionCore_code12 (w : World) (d : ℚ) (a : Person) (o : Option Person) :
    w.processActionCore d a o 12 =
      (let a2 : Person := { a with
        sustenance := clamp (a.sustenance - 50) 0 MAX_STAT
        health := clamp (a.health - 10) 0 MAX_HEALTH }
       if a2.TiR_score < 10 ∧ d < 0.05 then ⟨a2, o, w, true, 1000⟩
       else ⟨{ a2 with mood := clamp (a2.mood - 25) 0 MAX_STAT }, o, w, false, -100⟩) := by
  simp only [World.processActionCore]
  norm_num

/-- C3: whatever the value of the stochastic draw, an exit attempt
(action code 12) by an agent whose TiR score is at least 10 at call time
returns `exited = false` and takes the failed branch (reward −100). -/
theorem C3_exit_needs_low_alignment (w : World) (d : ℚ) (a : Person) (o : Option Person)
    (h : 10 ≤ a.TiR_score) :
    (w.processAction d a o 12).isExited = false ∧ (w.processAction d a o 12).deltaU = -100 := by
  constructor
  · rw [processAction_isExited, processActionCore_isExited]
    simp only [decide_eq_false_iff_not]
    rintro ⟨-, h2, -⟩
    rw [baseTurnCost_TiR] at h2
    linarith
  · rw [processAction_deltaU, processActionCore_code12]
    dsimp only
    rw [if_neg]
    rintro ⟨h2, -⟩
    exact not_lt.mpr h h2

theorem C3_witness :
    10 ≤ pA.TiR_score
    ∧ (wFix.processAction 0 pA none 12).isExited = false
    ∧ (wFix.processAction 0 pA none 12).deltaU = -100 :=
  ⟨by decide, (C3_exit_needs_low_alignment wFix 0 pA none (by decide)).1,
    (C3_exit_needs_low_alignment wFix 0 pA none (by decide)).2⟩

/-! ## C6: a successful market visit -/

theorem processActionCore_code4_success (w : World) (d : ℚ) (a : Person) (o : Option Person)
    (h : a.position = w.marketPos ∧ 50 ≤ w.resourceLevel) :
    w.processActionCore d a o 4 =
      ⟨{ a with
          sustenance := clamp (a.sustenance + 65) 0 MAX_STAT
          health := clamp (a.health + 8) 0 MAX_HEALTH
          reputation := clamp (a.reputation + 5) 0 MAX_STAT },
        o, { w with resourceLevel := w.resourceLevel - 50 }, false, 70⟩ := by
  simp only [World.processActionCore]
  norm_num
  first
    | exact h
    | rw [if_pos h]

set_option maxHeartbeats 1000000 in
/-- C6: a market visit by an agent standing on the market cell while
`resource_level ≥ 50` deducts exactly 50 from the pool (the final level
is the regeneration step applied on top of `level − 50`), and raises the
agent's sustenance toward but never above the cap 100. -/
theorem C6_market_visit (w : World) (d : ℚ) (a : Person) (o : Option Person)
    (hpos : a.position = w.marketPos) (hres : 50 ≤ w.resourceLevel)
    (h0 : 0 ≤ a.sustenance) (h1 : a.sustenance ≤ 100) :
    (w.processAction d a o 4).world.resourceLevel
        = clamp (w.resourceLevel - 50 + w.marketRegen) 0 w.resourceMax
    ∧ a.sustenance ≤ (w.processAction d a o 4).agent.sustenance
    ∧ (w.processAction d a o 4).agent.sustenance ≤ 100 := by
  have hcore := processActionCore_code4_success w d a.baseTurnCost o
    (⟨hpos, hres⟩ : a.baseTurnCost.position = w.marketPos ∧ 50 ≤ w.resourceLevel)
  have hagent : (w.processAction d a o 4).agent.sustenance =
      clamp (clamp (clamp (a.sustenance - 0.5) 0 MAX_STAT + 65) 0 MAX_STAT) 0 MAX_STAT := by
    rw [processAction_agent, hcore]
    rfl
  refine ⟨?_, ?_, ?_⟩
  · rw [processAction_world, if_pos ⟨rfl, hpos, hres⟩]
  · rw [hagent]
    simp only [MAX_STAT, clamp_eq, max_def, min_def]
    split_ifs <;> linarith
  · rw [hagent]
    simp only [MAX_STAT, clamp_eq, max_def, min_def]
    split_ifs <;> linarith

theorem C6_witness :
    pLow.position = wFix.marketPos ∧ 50 ≤ wFix.resourceLevel
    ∧ 0 ≤ pLow.sustenance ∧ pLow.sustenance ≤ 100
    ∧ (wFix.processAction 1 pLow none 4).world.resourceLevel
        = clamp (wFix.resourceLevel - 50 + wFix.marketRegen) 0 wFix.resourceMax
    ∧ pLow.sustenance ≤ (wFix.processAction 1 pLow none 4).agent.sustenance
    ∧ (wFix.processAction 1 pLow none 4).agent.sustenance ≤ 100 := by
  have h := C6_market_visit wFix 1 pLow none (by decide) (by decide) (by decide) (by decide)
  exact ⟨by decide, by decide, by decide, by decide, h.1, h.2.1, h.2.2⟩

/-! ## C10: belief sharing stays between the two scores -/

theorem share_belief_target (a t : Person) :
    (Person.share_belief a t).1 =
      { t with TiR_score :=
          (clamp (t.TiR_score + (a.TiR_score - t.TiR_score) * 0.15 * ((a.reputation + 50) / 100))
            0 100) } := by
  unfold Person.share_belief
  dsimp only
  split_ifs <;> rfl

theorem processActionCore_code11_agent (w : World) (d : ℚ) (a : Person) (o : Option Person) :
    (w.processActionCore d a o 11).agent = a := by
  simp only [World.processActionCore]
  norm_num
  cases o with
  | none => rfl
  | some t =>
    dsimp only
    split_ifs <;> rfl

/-- C10 (implicit): when both TiR scores and the actor's reputation lie
in `[0, 100]`, `share_belief` moves the target's TiR score to a value
weakly between its old score and the actor's score, and the acting
agent's own TiR score is unchanged through the whole
`process_action` call that resolves the belief-sharing action. -/
theorem C10_share_belief_bounded (w : World) (d : ℚ) (a t : Person)
    (ha0 : 0 ≤ a.TiR_score) (ha1 : a.TiR_score ≤ 100)
    (ht0 : 0 ≤ t.TiR_score) (ht1 : t.TiR_score ≤ 100)
    (hr0 : 0 ≤ a.reputation) (hr1 : a.reputation ≤ 100) :
    (min t.TiR_score a.TiR_score ≤ (Person.share_belief a t).1.TiR_score
      ∧ (Person.share_belief a t).1.TiR_score ≤ max t.TiR_score a.TiR_score)
    ∧ (w.processAction d a (some t) 11).agent.TiR_score = a.TiR_score := by
  constructor
  · rw [share_belief_target]
    dsimp only
    have hd : (0 : ℚ) ≤ (a.reputation + 50) / 100 := div_nonneg (by linarith) (by norm_num)
    have hk0 : (0 : ℚ) ≤ 0.15 * ((a.reputation + 50) / 100) := mul_nonneg (by norm_num) hd
    have hk1 : (0.15 : ℚ) * ((a.reputation + 50) / 100) ≤ 1 := by
      rw [mul_div_assoc']
      rw [div_le_one (by norm_num : (0:ℚ) < 100)]
      linarith
    have hbet : min t.TiR_score a.TiR_score ≤
          t.TiR_score + (a.TiR_score - t.TiR_score) * 0.15 * ((a.reputation + 50) / 100)
        ∧ t.TiR_score + (a.TiR_score - t.TiR_score) * 0.15 * ((a.reputation + 50) / 100)
          ≤ max t.TiR_score a.TiR_score := by
      rcases le_total t.TiR_score a.TiR_score with h | h
      · rw [min_eq_left h, max_eq_right h]
        constructor <;>
          nlinarith [mul_nonneg (sub_nonneg.mpr h) hk0,
            mul_le_mul_of_nonneg_left hk1 (sub_nonneg.mpr h)]
      · rw [min_eq_right h, max_eq_left h]
        constructor <;>
          nlinarith [mul_nonneg (sub_nonneg.mpr h) hk0,
            mul_le_mul_of_nonneg_left hk1 (sub_nonneg.mpr h)]
    rw [clamp_of_mem _ _ _
      (le_trans (le_min ht0 ha0) hbet.1) (le_trans hbet.2 (max_le ht1 ha1))]
    exact hbet
  · rw [processAction_agent, processActionCore_code11_agent]
    rfl

theorem C10_witness :
    (min pB.TiR_score pA.TiR_score ≤ (Person.share_belief pA pB).1.TiR_score
      ∧ (Person.share_belief pA pB).1.TiR_score ≤ max pB.TiR_score pA.TiR_score)
    ∧ (wFix.processAction 1 pA (some pB) 11).agent.TiR_score = pA.TiR_score :=
  C10_share_belief_bounded wFix 1 pA pB (by decide) (by decide) (by decide) (by decide)
    (by decide) (by decide)

/-! ## List access lemmas -/

theorem getD_set_self {α : Type} (l : List α) (i : ℕ) (x d : α) (h : i < l.length) :
    (l.set i x).getD i d = x := by
  rw [List.getD_eq_getElem?_getD, List.getElem?_set_self h]
  rfl

theorem getD_set_ne {α : Type} (l : List α) {i j : ℕ} (x d : α) (h : i ≠ j) :
    (l.set i x).getD j d = l.getD j d := by
  rw [List.getD_eq_getElem?_getD, List.getElem?_set_ne h, ← List.getD_eq_getElem?_getD]

theorem getD_range_map {α : Type} (n : ℕ) (f : ℕ → α) (i : ℕ) (d : α) :
    ((List.range n).map f).getD i d = if i < n then f i else d := by
  rw [List.getD_eq_getElem?_getD, List.getElem?_map]
  by_cases h : i < n
  · rw [List.getElem?_range h, if_pos h]
    rfl
  · rw [List.getElem?_eq_none (by simpa using not_lt.mp h), if_neg h]
    rfl

/-! ## The per-agent sweep: access lemmas -/

theorem shockOthers_length (i : ℕ) (pop : List Person) :
    (shockOthers i pop).length = pop.length := by
  unfold shockOthers
  rw [List.length_map, List.length_range]

theorem shockOthers_getD_self (i : ℕ) (pop : List Person) (h : i < pop.length) :
    (shockOthers i pop).getD i defaultPerson = pop.getD i defaultPerson := by
  unfold shockOthers
  rw [getD_range_map, if_pos h]
  dsimp only
  rw [if_neg]
  rintro ⟨hne, -⟩
  exact hne rfl

theorem writeBack_length (pop : List Person) (i : ℕ) (tIdx : Option ℕ) (res : ActionResult) :
    (writeBack pop i tIdx res).length = pop.length := by
  unfold writeBack
  rcases tIdx with _ | j <;> rcases res.other with _ | o <;>
    simp [List.length_set]

theorem writeBack_getD_self (pop : List Person) (i : ℕ) (tIdx : Option ℕ) (res : ActionResult)
    (hi : i < pop.length) (hne : ∀ j, tIdx = some j → j ≠ i) :
    (writeBack pop i tIdx res).getD i defaultPerson = res.agent := by
  unfold writeBack
  rcases tIdx with _ | j
  · exact getD_set_self _ _ _ _ (by simpa using hi)
  · rcases ho : res.other with _ | o
    · exact getD_set_self _ _ _ _ (by simpa using hi)
    · dsimp only
      rw [getD_set_ne _ _ _ (hne j rfl)]
      exact getD_set_self _ _ _ _ (by simpa using hi)

theorem reproStep_pop_length (r : AgentRand) (st : SweepState) (i action : ℕ)
    (tIdx : Option ℕ) : (reproStep r st i action tIdx).pop.length = st.pop.length := by
  unfold reproStep
  rcases tIdx with _ | j
  · rfl
  · dsimp only
    split_ifs
    · simp [List.length_set]
    · rfl

theorem reproStep_getD_tracker (r : AgentRand) (st : SweepState) (i action : ℕ)
    (tIdx : Option ℕ) (hi : i < st.pop.length) :
    ((reproStep r st i action tIdx).pop.getD i defaultPerson).tracker =
      (st.pop.getD i defaultPerson).tracker := by
  unfold reproStep
  rcases tIdx with _ | j
  · rfl
  · dsimp only
    split_ifs
    · dsimp only
      rw [getD_set_self _ _ _ _ hi]
      rfl
    · rfl

theorem decide_action_snd (r : AgentRand) (a : Person) (pop : List Person) (i : ℕ) :
    (decide_action r a pop i).2 = pickTarget r.targetIdx (othersIdx i pop) := by
  unfold decide_action
  dsimp only
  split_ifs <;> rfl

theorem othersIdx_ne (i : ℕ) (pop : List Person) : ∀ j ∈ othersIdx i pop, j ≠ i := by
  intro j hj
  unfold othersIdx at hj
  have h := List.of_mem_filter hj
  simp only [Bool.and_eq_true, bne_iff_ne, ne_eq, decide_eq_true_eq] at h
  exact h.1

theorem pickTarget_mem (tDraw : ℕ) (others : List ℕ) (j : ℕ)
    (h : pickTarget tDraw others = some j) : j ∈ others := by
  unfold pickTarget at h
  by_cases hlen : others.length = 0
  · rw [if_pos hlen] at h
    exact absurd h (by simp)
  · rw [if_neg hlen] at h
    have hpos : 0 < others.length := Nat.pos_of_ne_zero hlen
    have hlt : tDraw % others.length < others.length := Nat.mod_lt _ hpos
    have hgd : others.getD (tDraw % others.length) 0 = others[tDraw % others.length] := by
      rw [List.getD_eq_getElem?_getD, List.getElem?_eq_getElem hlt]
      rfl
    have hj : j = others[tDraw % others.length] := by
      rw [← hgd]
      exact (Option.some_inj.mp h).symm
    rw [hj]
    exact List.getElem_mem hlt

theorem chosenOf_target_ne (r : AgentRand) (st : SweepState) (i : ℕ) (a : Person) (j : ℕ)
    (h : (chosenOf r st i a).2 = some j) : j ≠ i := by
  unfold chosenOf at h
  rw [decide_action_snd] at h
  exact othersIdx_ne i _ j (pickTarget_mem _ _ _ h)

theorem actingStep_pop_length (r : AgentRand) (st : SweepState) (i : ℕ) (a : Person) :
    (actingStep r st i a).pop.length = st.pop.length := by
  unfold actingStep
  dsimp only
  rw [reproStep_pop_length]
  by_cases hex : (outcomeOf r st i a).isExited
  · rw [if_pos hex]
    dsimp only
    rw [shockOthers_length, List.length_set, writeBack_length, List.length_set]
  · rw [if_neg hex]
    dsimp only
    rw [List.length_set, writeBack_length, List.length_set]

/-! ## C4: the bandit update -/

theorem processActionCore_tracker (w : World) (d : ℚ) (a : Person) (o : Option Person)
    (c : ℕ) : (w.processActionCore d a o c).agent.tracker = a.tracker := by
  rcases Nat.lt_or_ge c 13 with hc | hc
  · interval_cases c <;>
      · rcases o with _ | o <;>
          · simp only [World.processActionCore]
            first
              | (norm_num; done)
              | rfl
              | (norm_num; split_ifs <;> rfl)
              | (split_ifs <;> rfl)
  · simp only [World.processActionCore]
    rw [if_neg (by omega), if_neg (by omega), if_neg (by omega), if_neg (by omega),
      if_neg (by omega), if_neg (by omega)]

theorem processAction_tracker (w : World) (d : ℚ) (a : Person) (o : Option Person) (c : ℕ) :
    (w.processAction d a o c).agent.tracker = a.tracker := by
  rw [processAction_agent]
  show (w.processActionCore d a.baseTurnCost o c).agent.tracker = a.tracker
  rw [processActionCore_tracker]
  rfl

theorem actingStep_tracker (r : AgentRand) (st : SweepState) (i : ℕ) (a : Person)
    (hi : i < st.pop.length) :
    ((actingStep r st i a).pop.getD i defaultPerson).tracker =
      trackerSet (outcomeOf r st i a).agent.tracker (stateKey a (chosenOf r st i a).1)
        (qUpdate
          (trackerGet (outcomeOf r st i a).agent.tracker (stateKey a (chosenOf r st i a).1))
          (outcomeOf r st i a).deltaU) := by
  unfold actingStep
  dsimp only
  have hl2 : (writeBack (st.pop.set i a) i (chosenOf r st i a).2 (outcomeOf r st i a)).length =
      st.pop.length := by
    rw [writeBack_length, List.length_set]
  have hg3 : ((writeBack (st.pop.set i a) i (chosenOf r st i a).2 (outcomeOf r st i a)).set i
        (qUpdatedAgent a (chosenOf r st i a).1 (outcomeOf r st i a))).getD i defaultPerson =
      qUpdatedAgent a (chosenOf r st i a).1 (outcomeOf r st i a) :=
    getD_set_self _ _ _ _ (by rw [hl2]; exact hi)
  by_cases hex : (outcomeOf r st i a).isExited
  · rw [if_pos hex, reproStep_getD_tracker]
    · dsimp only
      rw [shockOthers_getD_self, hg3]
      · rfl
      · rw [List.length_set, hl2]
        exact hi
    · dsimp only
      rw [shockOthers_length, List.length_set, hl2]
      exact hi
  · rw [if_neg hex, reproStep_getD_tracker]
    · dsimp only
      rw [hg3]
      rfl
    · dsimp only
      rw [List.length_set, hl2]
      exact hi

/-- C4: the learning update is `new = old + 0.5 × (reward − old)`; it is
strictly between the old value and the reward when they differ, equal to
the old value when they agree, and unseen keys read as the optimistic
default 10.  The environment call never touches the tracker, and in the
acting branch of a tick the agent's new tracker is exactly the old one
updated at the state-action key built from the *pre-action* agent
(position and stat buckets before `process_action` ran). -/
theorem C4_learning_update :
    (∀ q r : ℚ, qUpdate q r = q + 0.5 * (r - q))
    ∧ (∀ q r : ℚ, r ≠ q → min q r < qUpdate q r ∧ qUpdate q r < max q r)
    ∧ (∀ q : ℚ, qUpdate q q = q)
    ∧ (∀ (t : List (StateKey × ℚ)) (k : StateKey), t.lookup k = none → trackerGet t k = 10)
    ∧ (∀ (w : World) (d : ℚ) (a : Person) (o : Option Person) (c : ℕ),
        (w.processAction d a o c).agent.tracker = a.tracker)
    ∧ (∀ (r : AgentRand) (st : SweepState) (i : ℕ) (a : Person), i < st.pop.length →
        ((actingStep r st i a).pop.getD i defaultPerson).tracker =
          trackerSet (outcomeOf r st i a).agent.tracker (stateKey a (chosenOf r st i a).1)
            (qUpdate (trackerGet (outcomeOf r st i a).agent.tracker
              (stateKey a (chosenOf r st i a).1)) (outcomeOf r st i a).deltaU)) := by
  refine ⟨fun q r => rfl, ?_, ?_, ?_, processAction_tracker, actingStep_tracker⟩
  · intro q r h
    unfold qUpdate
    rcases lt_or_gt_of_ne h with h' | h'
    · rw [min_eq_right h'.le, max_eq_left h'.le]
      constructor <;> · rw [show (0.5 : ℚ) = 1/2 by norm_num]; linarith
    · rw [min_eq_left h'.le, max_eq_right h'.le]
      constructor <;> · rw [show (0.5 : ℚ) = 1/2 by norm_num]; linarith
  · intro q
    unfold qUpdate
    ring
  · intro t k h
    unfold trackerGet
    rw [h]
    rfl

theorem C4_witness :
    qUpdate 10 20 = 10 + 0.5 * (20 - 10)
    ∧ (min 10 20 < qUpdate 10 20 ∧ qUpdate 10 20 < max 10 (20 : ℚ))
    ∧ qUpdate 7 7 = 7
    ∧ trackerGet [] ((0, 0), true, true, 5) = 10
    ∧ (wFix.processAction 1 pA none 5).agent.tracker = pA.tracker
    ∧ ((actingStep (rExplore 5) ⟨[pA, pB], wFix, [], [], []⟩ 0 pA).pop.getD 0
          defaultPerson).tracker =
        trackerSet (outcomeOf (rExplore 5) ⟨[pA, pB], wFix, [], [], []⟩ 0 pA).agent.tracker
          (stateKey pA (chosenOf (rExplore 5) ⟨[pA, pB], wFix, [], [], []⟩ 0 pA).1)
          (qUpdate
            (trackerGet (outcomeOf (rExplore 5) ⟨[pA, pB], wFix, [], [], []⟩ 0 pA).agent.tracker
              (stateKey pA (chosenOf (rExplore 5) ⟨[pA, pB], wFix, [], [], []⟩ 0 pA).1))
            (outcomeOf (rExplore 5) ⟨[pA, pB], wFix, [], [], []⟩ 0 pA).deltaU) :=
  ⟨C4_learning_update.1 10 20,
   C4_learning_update.2.1 10 20 (by decide),
   C4_learning_update.2.2.1 7,
   C4_learning_update.2.2.2.1 [] ((0, 0), true, true, 5) rfl,
   C4_learning_update.2.2.2.2.1 wFix 1 pA none 5,
   C4_learning_update.2.2.2.2.2 (rExplore 5) ⟨[pA, pB], wFix, [], [], []⟩ 0 pA (by decide)⟩

/-! ## C7: `Dependent` agents never act and mature on schedule -/

/-- C7: the tick of a `Dependent` agent is exactly the maturation
bookkeeping: the world, removal list, children and exit list are
untouched and no other agent changes (so no decision-policy or
environment call happens on its behalf), its turn counter is bumped,
and as soon as the counter reaches the maturation threshold `cpd` it
becomes `Single` with its age reset to the juvenile value 10. -/
theorem C7_dependent_never_acts (cpd : ℕ) (r : AgentRand) (st : SweepState) (i : ℕ)
    (h : (st.pop.getD i defaultPerson).relationshipStatus = "Dependent") :
    processIdx cpd r st i =
      { st with pop := st.pop.set i (matureStep cpd (st.pop.getD i defaultPerson)) }
    ∧ ∀ a : Person, a.turnsSurvived + 1 ≥ cpd →
        (matureStep cpd a).relationshipStatus = "Single" ∧ (matureStep cpd a).ageYears = 10 := by
  constructor
  · unfold processIdx
    rw [if_pos h]
    rfl
  · intro a ha
    unfold matureStep
    dsimp only
    rw [if_pos ha]
    exact ⟨rfl, rfl⟩

theorem C7_witness :
    (processIdx 1 (rExplore 5) ⟨[pDep], wFix, [], [], []⟩ 0 =
      { (⟨[pDep], wFix, [], [], []⟩ : SweepState) with
        pop := [pDep].set 0 (matureStep 1 ([pDep].getD 0 defaultPerson)) })
    ∧ ((matureStep 1 pDep).relationshipStatus = "Single" ∧ (matureStep 1 pDep).ageYears = 10) :=
  ⟨(C7_dependent_never_acts 1 (rExplore 5) ⟨[pDep], wFix, [], [], []⟩ 0 (by decide)).1,
   (C7_dependent_never_acts 1 (rExplore 5) ⟨[pDep], wFix, [], [], []⟩ 0 (by decide)).2 pDep
     (by decide)⟩

/-! ## Sweep-level lemmas: what one tick does to the population -/

theorem getD_set {α : Type} (l : List α) (i j : ℕ) (x d : α) :
    (l.set i x).getD j d = if i = j ∧ i < l.length then x else l.getD j d := by
  rw [List.getD_eq_getElem?_getD, List.getElem?_set, List.getD_eq_getElem?_getD]
  by_cases h1 : i = j
  · subst h1
    by_cases h2 : i < l.length
    · simp [h2]
    · rw [if_pos rfl, if_neg h2, if_neg (fun hc => h2 hc.2),
        List.getElem?_eq_none (not_lt.mp h2)]
  · rw [if_neg h1, if_neg (fun hc => h1 hc.1)]

theorem getD_of_le {α : Type} (l : List α) (j : ℕ) (d : α) (h : l.length ≤ j) :
    l.getD j d = d := by
  rw [List.getD_eq_getElem?_getD, List.getElem?_eq_none h]
  rfl

theorem apply_aging_snd (p : Person) (evict : List StateKey) :
    (p.apply_aging_and_decay evict).2 = decayDies p := by
  unfold Person.apply_aging_and_decay decayDies
  dsimp only
  by_cases h : clamp (p.health - p.get_health_decay_rate) 0 MAX_HEALTH ≤ 0
      ∨ clamp (p.sustenance - 0.005) 0 MAX_STAT ≤ 0
  · rw [if_pos h]
    exact (decide_eq_true h).symm
  · rw [if_neg h]
    exact (decide_eq_false h).symm

theorem decayDies_congr (p q : Person) (h : vitalView p = vitalView q) :
    decayDies p = decayDies q := by
  unfold vitalView at h
  simp only [Prod.mk.injEq] at h
  unfold decayDies Person.get_health_decay_rate
  rw [h.1, h.2.1, h.2.2.1]

theorem removesAt_congr (p q : Person) (h : vitalView p = vitalView q) :
    removesAt p = removesAt q := by
  have h4 : p.relationshipStatus = q.relationshipStatus := by
    unfold vitalView at h
    simp only [Prod.mk.injEq] at h
    exact h.2.2.2
  unfold removesAt
  rw [h4, decayDies_congr p q h]

theorem processActionCore_other_vital (w : World) (d : ℚ) (a : Person) (o : Option Person)
    (c : ℕ) : ((w.processActionCore d a o c).other).map vitalView = o.map vitalView := by
  rcases Nat.lt_or_ge c 13 with hc | hc
  · interval_cases c <;>
      · rcases o with _ | o <;>
          · simp only [World.processActionCore]
            first
              | (norm_num; done)
              | (norm_num; split_ifs <;> simp [share_belief_target, vitalView])
              | (split_ifs <;> simp [share_belief_target, vitalView])
  · simp only [World.processActionCore]
    rw [if_neg (by omega), if_neg (by omega), if_neg (by omega), if_neg (by omega),
      if_neg (by omega), if_neg (by omega)]

theorem shockOthers_vital (i : ℕ) (pop : List Person) (j : ℕ) :
    vitalView ((shockOthers i pop).getD j defaultPerson) =
      vitalView (pop.getD j defaultPerson) := by
  unfold shockOthers
  rw [getD_range_map]
  by_cases h : j < pop.length
  · rw [if_pos h]
    dsimp only
    split_ifs <;> rfl
  · rw [if_neg h, getD_of_le _ _ _ (not_lt.mp h)]

theorem writeBack_vital (pop0 : List Person) (i : ℕ) (tIdx : Option ℕ) (res : ActionResult)
    (j : ℕ) (hne : j ≠ i)
    (hvo : res.other.map vitalView =
      (tIdx.map (fun t => pop0.getD t defaultPerson)).map vitalView) :
    vitalView ((writeBack pop0 i tIdx res).getD j defaultPerson) =
      vitalView (pop0.getD j defaultPerson) := by
  unfold writeBack
  rcases tIdx with _ | t
  · dsimp only
    rw [getD_set_ne _ _ _ (Ne.symm hne)]
  · rcases ho : res.other with _ | o'
    · dsimp only
      rw [getD_set_ne _ _ _ (Ne.symm hne)]
    · dsimp only
      rw [ho] at hvo
      simp only [Option.map_some'] at hvo
      have hv : vitalView o' = vitalView (pop0.getD t defaultPerson) :=
        Option.some_inj.mp hvo
      rw [getD_set]
      by_cases hjt : t = j ∧ t < (pop0.set i res.agent).length
      · rw [if_pos hjt, hv, hjt.1]
      · rw [if_neg hjt, getD_set_ne _ _ _ (Ne.symm hne)]

theorem actingStep_vital (r : AgentRand) (st : SweepState) (i : ℕ) (a : Person) (j : ℕ)
    (hne : j ≠ i) :
    vitalView ((actingStep r st i a).pop.getD j defaultPerson) =
      vitalView (st.pop.getD j defaultPerson) := by
  unfold actingStep
  dsimp only
  have hrepro : ∀ st' : SweepState,
      (reproStep r st' i ((chosenOf r st i a).1) ((chosenOf r st i a).2)).pop.getD j
        defaultPerson = st'.pop.getD j defaultPerson := by
    intro st'
    unfold reproStep
    rcases (chosenOf r st i a).2 with _ | t
    · rfl
    · dsimp only
      split_ifs
      · dsimp only
        rw [getD_set_ne _ _ _ (Ne.symm hne)]
      · rfl
  rw [hrepro]
  have hvo : (outcomeOf r st i a).other.map vitalView =
      (((chosenOf r st i a).2).map (fun t => (st.pop.set i a).getD t defaultPerson)).map
        vitalView := by
    unfold outcomeOf
    rw [processAction_other, processActionCore_other_vital]
    rfl
  have hw : vitalView
        ((writeBack (st.pop.set i a) i ((chosenOf r st i a).2) (outcomeOf r st i a)).getD j
          defaultPerson) = vitalView (st.pop.getD j defaultPerson) := by
    rw [writeBack_vital _ _ _ _ _ hne hvo, getD_set_ne _ _ _ (Ne.symm hne)]
  by_cases hex : (outcomeOf r st i a).isExited
  · rw [if_pos hex]
    dsimp only
    rw [shockOthers_vital, getD_set_ne _ _ _ (Ne.symm hne), hw]
  · rw [if_neg hex]
    dsimp only
    rw [getD_set_ne _ _ _ (Ne.symm hne), hw]

theorem processIdx_pop_length (cpd : ℕ) (r : AgentRand) (st : SweepState) (i : ℕ) :
    (processIdx cpd r st i).pop.length = st.pop.length := by
  unfold processIdx
  dsimp only
  split_ifs
  · unfold dependentStep
    dsimp only
    rw [List.length_set]
  · dsimp only
    rw [List.length_set]
  · exact actingStep_pop_length _ _ _ _

theorem processIdx_vital (cpd : ℕ) (r : AgentRand) (st : SweepState) (i j : ℕ)
    (hne : j ≠ i) :
    vitalView ((processIdx cpd r st i).pop.getD j defaultPerson) =
      vitalView (st.pop.getD j defaultPerson) := by
  unfold processIdx
  dsimp only
  split_ifs
  · unfold dependentStep
    dsimp only
    rw [getD_set_ne _ _ _ (Ne.symm hne)]
  · dsimp only
    rw [getD_set_ne _ _ _ (Ne.symm hne)]
  · exact actingStep_vital _ _ _ _ _ hne

theorem actingStep_toRemove (r : AgentRand) (st : SweepState) (i : ℕ) (a : Person) :
    (actingStep r st i a).toRemove =
      st.toRemove ++ (if (outcomeOf r st i a).isExited then [i] else []) := by
  unfold actingStep
  dsimp only
  have hrepro : ∀ st' : SweepState,
      (reproStep r st' i ((chosenOf r st i a).1) ((chosenOf r st i a).2)).toRemove =
        st'.toRemove := by
    intro st'
    unfold reproStep
    rcases (chosenOf r st i a).2 with _ | t
    · rfl
    · dsimp only
      split_ifs <;> rfl
  rw [hrepro]
  by_cases hex : (outcomeOf r st i a).isExited
  · rw [if_pos hex, if_pos hex]
  · rw [if_neg hex, if_neg hex]
    simp

theorem processIdx_toRemove (cpd : ℕ) (r : AgentRand) (st : SweepState) (i : ℕ)
    (hd : 0.05 ≤ r.exitDraw) :
    (processIdx cpd r st i).toRemove =
      st.toRemove ++ (if removesAt (st.pop.getD i defaultPerson) then [i] else []) := by
  unfold processIdx
  dsimp only
  by_cases h1 : (st.pop.getD i defaultPerson).relationshipStatus = "Dependent"
  · have hra : removesAt (st.pop.getD i defaultPerson) = false := by
      unfold removesAt
      rw [h1]
      simp
    rw [if_pos h1, hra]
    simp [dependentStep]
  · rw [if_neg h1]
    cases h2 : decayDies (st.pop.getD i defaultPerson) with
    | true =>
      have hra : removesAt (st.pop.getD i defaultPerson) = true := by
        unfold removesAt
        rw [h2, Bool.and_true]
        exact bne_iff_ne.mpr h1
      rw [if_pos ((apply_aging_snd _ _).trans h2), hra]
      simp
    | false =>
      have hra : removesAt (st.pop.getD i defaultPerson) = false := by
        unfold removesAt
        rw [h2, Bool.and_false]
      have h2' := (apply_aging_snd (st.pop.getD i defaultPerson) r.evict).trans h2
      have hex : (outcomeOf r st i
          ((st.pop.getD i defaultPerson).apply_aging_and_decay r.evict).1).isExited = false := by
        unfold outcomeOf
        rw [processAction_isExited, processActionCore_isExited]
        simp only [decide_eq_false_iff_not]
        rintro ⟨-, -, hlt⟩
        exact absurd (lt_of_le_of_lt hd hlt) (lt_irrefl _)
      rw [if_neg (by rw [h2']; exact Bool.false_ne_true), actingStep_toRemove, hra, hex]

/-- An agent whose per-turn decay kills it takes the death branch of the
sweep: its index is appended to the removal queue. -/
theorem processIdx_dead (cpd : ℕ) (r : AgentRand) (st : SweepState) (i : ℕ)
    (h : removesAt (st.pop.getD i defaultPerson) = true) :
    (processIdx cpd r st i).toRemove = st.toRemove ++ [i] := by
  unfold removesAt at h
  simp only [Bool.and_eq_true] at h
  obtain ⟨h1, h2⟩ := h
  unfold processIdx
  dsimp only
  rw [if_neg (bne_iff_ne.mp h1), if_pos ((apply_aging_snd _ _).trans h2)]

/-- Processing one agent only ever appends to the removal queue. -/
theorem processIdx_toRemove_mono (cpd : ℕ) (r : AgentRand) (st : SweepState) (i : ℕ) :
    ∃ t, (processIdx cpd r st i).toRemove = st.toRemove ++ t := by
  unfold processIdx
  dsimp only
  split_ifs
  · exact ⟨[], by simp [dependentStep]⟩
  · exact ⟨[i], rfl⟩
  · exact ⟨_, actingStep_toRemove _ _ _ _⟩

/-- Entries of the removal queue survive the rest of the sweep. -/
theorem fold_toRemove_mono (cpd : ℕ) (rs : List AgentRand) :
    ∀ (l : List ℕ) (st : SweepState) (x : ℕ), x ∈ st.toRemove →
      x ∈ (l.foldl (fun t k => processIdx cpd (rs.getD k defaultRand) t k) st).toRemove := by
  intro l
  induction l with
  | nil => exact fun st x hx => hx
  | cons k ks ih =>
    intro st x hx
    rw [List.foldl_cons]
    apply ih
    obtain ⟨t, ht⟩ := processIdx_toRemove_mono cpd (rs.getD k defaultRand) st k
    rw [ht]
    exact List.mem_append_left _ hx

/-- In *any* tick — whatever the other agents do, other deaths and
successful exits included — an index whose agent is non-`Dependent` and
is killed by this tick's decay ends up in the removal queue. -/
theorem sweep_removes_dead (cpd : ℕ) (rs : List AgentRand) :
    ∀ (l : List ℕ) (st : SweepState) (i : ℕ), l.Nodup → i ∈ l →
      removesAt (st.pop.getD i defaultPerson) = true →
      i ∈ (l.foldl (fun t k => processIdx cpd (rs.getD k defaultRand) t k) st).toRemove := by
  intro l
  induction l with
  | nil => exact fun st i _ hi _ => absurd hi (List.not_mem_nil i)
  | cons k ks ih =>
    intro st i hnd hi hra
    obtain ⟨hk, hks⟩ := List.nodup_cons.mp hnd
    rw [List.foldl_cons]
    rcases List.mem_cons.mp hi with hik | hiks
    · subst hik
      apply fold_toRemove_mono
      rw [processIdx_dead cpd _ st i hra]
      exact List.mem_append_right _ (List.mem_singleton.mpr rfl)
    · have hne : i ≠ k := fun h => hk (h ▸ hiks)
      apply ih _ i hks hiks
      rw [removesAt_congr _ _ (processIdx_vital cpd (rs.getD k defaultRand) st k i hne)]
      exact hra

/-- Folding the per-agent sweep over any duplicate-free index list whose
exit draws all fail preserves the population length, leaves the vital
fields of unprocessed agents untouched, and queues exactly the
non-`Dependent` decay deaths for removal, judged on the pre-sweep
population. -/
theorem sweep_fold (cpd : ℕ) (rs : List AgentRand) (l : List ℕ) :
    ∀ st : SweepState, l.Nodup →
      (∀ k ∈ l, 0.05 ≤ (rs.getD k defaultRand).exitDraw) →
      ((l.foldl (fun t k => processIdx cpd (rs.getD k defaultRand) t k) st).pop.length
          = st.pop.length
        ∧ (∀ j, j ∉ l →
            vitalView ((l.foldl (fun t k => processIdx cpd (rs.getD k defaultRand) t k)
              st).pop.getD j defaultPerson) = vitalView (st.pop.getD j defaultPerson))
        ∧ (l.foldl (fun t k => processIdx cpd (rs.getD k defaultRand) t k) st).toRemove
            = st.toRemove ++ l.filter (fun k => removesAt (st.pop.getD k defaultPerson))) := by
  induction l with
  | nil =>
    intro st _ _
    exact ⟨rfl, fun j _ => rfl, by simp⟩
  | cons k ks ih =>
    intro st hnd hdr
    obtain ⟨hk, hks⟩ := List.nodup_cons.mp hnd
    obtain ⟨ihl, ihv, iht⟩ := ih (processIdx cpd (rs.getD k defaultRand) st k) hks
      (fun k' hk' => hdr k' (List.mem_cons_of_mem _ hk'))
    refine ⟨?_, ?_, ?_⟩
    · rw [List.foldl_cons, ihl, processIdx_pop_length]
    · intro j hj
      have hjk : j ≠ k := fun h => hj (h ▸ List.mem_cons_self k ks)
      have hjks : j ∉ ks := fun h => hj (List.mem_cons_of_mem _ h)
      rw [List.foldl_cons, ihv j hjks, processIdx_vital _ _ _ _ _ hjk]
    · rw [List.foldl_cons, iht,
        processIdx_toRemove _ _ _ _ (hdr k (List.mem_cons_self k ks)), List.filter_cons]
      have hfil : ks.filter (fun k' =>
            removesAt ((processIdx cpd (rs.getD k defaultRand) st k).pop.getD k'
              defaultPerson))
          = ks.filter (fun k' => removesAt (st.pop.getD k' defaultPerson)) := by
        apply List.filter_congr
        intro k' hk'
        have hne : k' ≠ k := fun h => hk (h ▸ hk')
        rw [removesAt_congr _ _ (processIdx_vital cpd (rs.getD k defaultRand) st k k' hne)]
      rw [hfil]
      by_cases hr : removesAt (st.pop.getD k defaultPerson) = true
      · rw [hr]
        simp
      · have hr' : removesAt (st.pop.getD k defaultPerson) = false := Bool.eq_false_iff.mpr hr
        rw [hr']
        simp

/-- A filter over `range n` whose predicate holds at exactly one index
below `n` returns that singleton. -/
theorem filter_range_single (f : ℕ → Bool) (i : ℕ) (hf : f i = true) :
    ∀ n, i < n → (∀ j, j < n → j ≠ i → f j = false) → (List.range n).filter f = [i] := by
  intro n
  induction n with
  | zero => omega
  | succ m ih =>
    intro hi hother
    rw [List.range_succ, List.filter_append]
    by_cases him : i = m
    · subst him
      have hnil : (List.range i).filter f = [] := by
        rw [List.filter_eq_nil]
        intro a ha
        have ha' : a < i := List.mem_range.mp ha
        simp [hother a (by omega) (by omega)]
      rw [hnil, List.nil_append]
      simp [List.filter, hf]
    · have hi' : i < m := by omega
      rw [ih hi' (fun j hj hne => hother j (by omega) hne)]
      have hm : f m = false := hother m (by omega) (fun h => him h.symm)
      simp [List.filter, hm]

/-! ## The post-sweep grief loop -/

theorem grieveRound_length (rem : List ℕ) (pop : List Person) (d : ℕ) :
    (grieveRound rem pop d).length = pop.length := by
  unfold grieveRound
  rw [List.length_map, List.length_range]

theorem grieveRound_getD (rem : List ℕ) (pop : List Person) (d j : ℕ) (hj : j < pop.length) :
    (grieveRound rem pop d).getD j defaultPerson =
      if rem.contains j then pop.getD j defaultPerson
      else (Person.grieve_loss (pop.getD j defaultPerson) (pop.getD d defaultPerson)).1 := by
  unfold grieveRound
  rw [getD_range_map, if_pos hj]

theorem grieveRound_getD_rem (rem : List ℕ) (pop : List Person) (d j : ℕ)
    (hj : rem.contains j = true) :
    (grieveRound rem pop d).getD j defaultPerson = pop.getD j defaultPerson := by
  by_cases hl : j < pop.length
  · rw [grieveRound_getD _ _ _ _ hl, if_pos hj]
  · rw [getD_of_le _ _ _ (by rw [grieveRound_length]; exact not_lt.mp hl),
      getD_of_le _ _ _ (not_lt.mp hl)]

theorem grieveAll_length (rem : List ℕ) (pop : List Person) :
    (grieveAll rem pop).length = pop.length := by
  unfold grieveAll
  suffices h : ∀ (l : List ℕ) (p : List Person),
      (l.foldl (grieveRound rem) p).length = p.length from h rem pop
  intro l
  induction l with
  | nil => intro p; rfl
  | cons d ds ih =>
    intro p
    rw [List.foldl_cons, ih, grieveRound_length]

theorem grieveAll_fold_getD (rem : List ℕ) (pop : List Person) (j : ℕ)
    (hjl : j < pop.length) (hj : rem.contains j = false) :
    ∀ (l : List ℕ) (p : List Person), p.length = pop.length →
      (∀ d, rem.contains d = true → p.getD d defaultPerson = pop.getD d defaultPerson) →
      (∀ d ∈ l, rem.contains d = true) →
      (l.foldl (grieveRound rem) p).getD j defaultPerson =
        l.foldl (fun a d => (Person.grieve_loss a (pop.getD d defaultPerson)).1)
          (p.getD j defaultPerson) := by
  intro l
  induction l with
  | nil => intro p _ _ _; rfl
  | cons d ds ih =>
    intro p hpl hprem hmem
    rw [List.foldl_cons, List.foldl_cons]
    have h1 : (grieveRound rem p d).length = pop.length := by
      rw [grieveRound_length, hpl]
    have h2 : ∀ d', rem.contains d' = true →
        (grieveRound rem p d).getD d' defaultPerson = pop.getD d' defaultPerson := by
      intro d' hd'
      rw [grieveRound_getD_rem _ _ _ _ hd', hprem d' hd']
    have h3 : ∀ d' ∈ ds, rem.contains d' = true :=
      fun d' hd' => hmem d' (List.mem_cons_of_mem _ hd')
    rw [ih (grieveRound rem p d) h1 h2 h3]
    have hjd : (grieveRound rem p d).getD j defaultPerson =
        (Person.grieve_loss (p.getD j defaultPerson) (pop.getD d defaultPerson)).1 := by
      rw [grieveRound_getD rem p d j (hpl ▸ hjl),
        if_neg (by rw [hj]; exact Bool.false_ne_true),
        hprem d (hmem d (List.mem_cons_self d ds))]
    rw [hjd]

/-- Pointwise description of the grief loop: a survivor (not queued for
removal) ends up grieving once for every queued agent, in queue order,
with each deceased read in its post-sweep state. -/
theorem grieveAll_getD (rem : List ℕ) (pop : List Person) (j : ℕ)
    (hjl : j < pop.length) (hj : rem.contains j = false) :
    (grieveAll rem pop).getD j defaultPerson =
      rem.foldl (fun a d => (Person.grieve_loss a (pop.getD d defaultPerson)).1)
        (pop.getD j defaultPerson) := by
  unfold grieveAll
  exact grieveAll_fold_getD rem pop j hjl hj rem pop rfl (fun d _ => rfl)
    (fun d hd => by simpa using hd)

/-! ## C8: seed determinism -/

/-- C8: the per-tick snapshot sequence is a pure function of the run
parameters and of the random draw streams.  In the source all
nondeterminism flows through the global `random` generator, which
`Simulation.__init__` seeds with the given seed, so two runs with the
same seed consume identical draw streams (the `uuid4` agent ids are
unseeded but never read); here the streams are explicit, and equal
streams with identical parameters yield identical metric sequences. -/
theorem C8_seed_determinism (cpd turns : ℕ) (w : World)
    (rss₁ rss₂ : List (List AgentRand)) (h : rss₁ = rss₂) :
    (runSim cpd rss₁ turns (simInit w)).metrics =
      (runSim cpd rss₂ turns (simInit w)).metrics := by
  rw [h]

theorem C8_witness :
    (runSim 365 [[rExplore 5, rExplore 5, rExplore 4]] 2 (simInit wFix)).metrics =
      (runSim 365 [[rExplore 5, rExplore 5, rExplore 4]] 2 (simInit wFix)).metrics :=
  C8_seed_determinism 365 2 wFix [[rExplore 5, rExplore 5, rExplore 4]]
    [[rExplore 5, rExplore 5, rExplore 4]] rfl

/-! ## C5: death removes the agent and triggers grief -/

/-- C5: in *every* tick — other simultaneous deaths and successful
exits included — a non-`Dependent` agent killed by this tick's decay is
queued for removal; the tick's resulting population consists exactly of
the non-queued agents in their post-grief states (so the dead agent's
slot is gone) plus the newborn children; every remaining (non-queued)
agent ends the tick having grieved once, in queue order, for each
removed agent — in particular once for this dead one; and `grieve_loss`
reduces the survivor's mood by 15 (clamped), or by 40 together with the
`Grieving` transition and a cleared partner reference when the deceased
was the survivor's bonded partner. -/
theorem C5_death_removal_and_grief (cpd : ℕ) (rs : List AgentRand) (s : SimState) (i : ℕ)
    (hi : i < s.agents.length)
    (hdep : (s.agents.getD i defaultPerson).relationshipStatus ≠ "Dependent")
    (hdies : decayDies (s.agents.getD i defaultPerson) = true) :
    i ∈ (sweepOf cpd rs s).toRemove
    ∧ (sweepOf cpd rs s).toRemove.contains i = true
    ∧ (step cpd rs s).agents =
        (((List.range (sweepOf cpd rs s).pop.length).filter
            (fun j => !((sweepOf cpd rs s).toRemove.contains j))).map
          (fun j => (grieveAll (sweepOf cpd rs s).toRemove
            (sweepOf cpd rs s).pop).getD j defaultPerson))
        ++ (sweepOf cpd rs s).newChildren
    ∧ (∀ j, j < (sweepOf cpd rs s).pop.length →
        (sweepOf cpd rs s).toRemove.contains j = false →
        (grieveAll (sweepOf cpd rs s).toRemove (sweepOf cpd rs s).pop).getD j
            defaultPerson =
          (sweepOf cpd rs s).toRemove.foldl
            (fun a d => (Person.grieve_loss a
              ((sweepOf cpd rs s).pop.getD d defaultPerson)).1)
            ((sweepOf cpd rs s).pop.getD j defaultPerson))
    ∧ (∀ dec p : Person,
        (p.partnerName = some dec.name →
          (p.grieve_loss dec).1.mood = clamp (p.mood - 40) 0 MAX_STAT
          ∧ (p.grieve_loss dec).1.relationshipStatus = "Grieving"
          ∧ (p.grieve_loss dec).1.partnerName = none)
        ∧ (p.partnerName ≠ some dec.name →
          (p.grieve_loss dec).1.mood = clamp (p.mood - 15) 0 MAX_STAT
          ∧ (p.grieve_loss dec).1.relationshipStatus = p.relationshipStatus
          ∧ (p.grieve_loss dec).1.partnerName = p.partnerName)) := by
  have hra : removesAt (s.agents.getD i defaultPerson) = true := by
    unfold removesAt
    rw [hdies, Bool.and_true]
    exact bne_iff_ne.mpr hdep
  have hmem : i ∈ (sweepOf cpd rs s).toRemove := by
    have e : sweepOf cpd rs s =
        (List.range s.agents.length).foldl
          (fun t k => processIdx cpd (rs.getD k defaultRand) t k)
          ⟨s.agents, s.world, [], [], []⟩ := rfl
    rw [e]
    exact sweep_removes_dead cpd rs (List.range s.agents.length)
      ⟨s.agents, s.world, [], [], []⟩ i (List.nodup_range _) (List.mem_range.mpr hi) hra
  refine ⟨hmem, by simpa using hmem, ?_, ?_, ?_⟩
  · have hstep : (step cpd rs s).agents =
        removeIdxs (sweepOf cpd rs s).toRemove
          (grieveAll (sweepOf cpd rs s).toRemove (sweepOf cpd rs s).pop)
        ++ (sweepOf cpd rs s).newChildren := rfl
    rw [hstep]
    unfold removeIdxs
    rw [grieveAll_length]
  · exact fun j hjl hjc => grieveAll_getD _ _ _ hjl hjc
  · intro dec p
    constructor
    · intro hp
      unfold Person.grieve_loss
      rw [if_pos hp]
      exact ⟨rfl, rfl, rfl⟩
    · intro hp
      unfold Person.grieve_loss
      rw [if_neg hp]
      exact ⟨rfl, rfl, rfl⟩

theorem C5_witness :
    (0 ∈ (sweepOf 365 [rExplore 5, rExplore 5, rExplore 5] sDead2).toRemove)
    ∧ (sweepOf 365 [rExplore 5, rExplore 5, rExplore 5] sDead2).toRemove.contains 0 = true
    ∧ (step 365 [rExplore 5, rExplore 5, rExplore 5] sDead2).agents =
        (((List.range (sweepOf 365 [rExplore 5, rExplore 5, rExplore 5] sDead2).pop.length).filter
            (fun j => !((sweepOf 365 [rExplore 5, rExplore 5, rExplore 5]
              sDead2).toRemove.contains j))).map
          (fun j => (grieveAll (sweepOf 365 [rExplore 5, rExplore 5, rExplore 5] sDead2).toRemove
            (sweepOf 365 [rExplore 5, rExplore 5, rExplore 5] sDead2).pop).getD j defaultPerson))
        ++ (sweepOf 365 [rExplore 5, rExplore 5, rExplore 5] sDead2).newChildren
    ∧ ((grieveAll (sweepOf 365 [rExplore 5, rExplore 5, rExplore 5] sDead2).toRemove
          (sweepOf 365 [rExplore 5, rExplore 5, rExplore 5] sDead2).pop).getD 1
            defaultPerson =
        (sweepOf 365 [rExplore 5, rExplore 5, rExplore 5] sDead2).toRemove.foldl
          (fun a d => (Person.grieve_loss a
            ((sweepOf 365 [rExplore 5, rExplore 5, rExplore 5] sDead2).pop.getD d
              defaultPerson)).1)
          ((sweepOf 365 [rExplore 5, rExplore 5, rExplore 5] sDead2).pop.getD 1 defaultPerson))
    ∧ ((pPartner.grieve_loss pDead).1.mood = clamp (pPartner.mood - 40) 0 MAX_STAT
        ∧ (pPartner.grieve_loss pDead).1.relationshipStatus = "Grieving"
        ∧ (pPartner.grieve_loss pDead).1.partnerName = none)
    ∧ ((pA.grieve_loss pDead).1.mood = clamp (pA.mood - 15) 0 MAX_STAT
        ∧ (pA.grieve_loss pDead).1.relationshipStatus = pA.relationshipStatus
        ∧ (pA.grieve_loss pDead).1.partnerName = pA.partnerName) := by
  have h := C5_death_removal_and_grief 365 [rExplore 5, rExplore 5, rExplore 5] sDead2 0
    (by decide) (by decide) (by decide)
  exact ⟨h.1, h.2.1, h.2.2.1, h.2.2.2.1 1 (by decide) (by decide),
    (h.2.2.2.2 pDead pPartner).1 (by decide), (h.2.2.2.2 pDead pA).2 (by decide)⟩

/-! ## C9: every removal (death or exit) triggers grief -/

/-- C9 (implicit): every agent queued for removal during a tick —
whether it died during decay or exited voluntarily — triggers
`grieve_loss` on every agent that is not itself queued: such a survivor
ends the tick having grieved once for each queued agent (in queue
order), and is present in the resulting population in that fully
grieved state.  A successful exit does queue the exiting agent, so an
exit inflicts the grief penalty on survivors in addition to the
ideological shock applied during the sweep. -/
theorem C9_every_removal_triggers_grief (cpd : ℕ) (rs : List AgentRand) (s : SimState) :
    (∀ j, j < (sweepOf cpd rs s).pop.length →
      (sweepOf cpd rs s).toRemove.contains j = false →
      ((sweepOf cpd rs s).toRemove.foldl
          (fun a d => (Person.grieve_loss a
            ((sweepOf cpd rs s).pop.getD d defaultPerson)).1)
          ((sweepOf cpd rs s).pop.getD j defaultPerson)) ∈ (step cpd rs s).agents)
    ∧ (∀ (r : AgentRand) (st : SweepState) (i : ℕ) (a : Person),
        (outcomeOf r st i a).isExited = true →
        (actingStep r st i a).toRemove = st.toRemove ++ [i]) := by
  constructor
  · intro j hjl hjc
    have hstep : (step cpd rs s).agents =
        removeIdxs (sweepOf cpd rs s).toRemove
          (grieveAll (sweepOf cpd rs s).toRemove (sweepOf cpd rs s).pop)
        ++ (sweepOf cpd rs s).newChildren := rfl
    rw [hstep]
    apply List.mem_append_left
    rw [← grieveAll_getD _ _ _ hjl hjc]
    unfold removeIdxs
    apply List.mem_map_of_mem
    apply List.mem_filter.mpr
    refine ⟨List.mem_range.mpr ?_, by simpa using hjc⟩
    rw [grieveAll_length]
    exact hjl
  · intro r st i a hex
    rw [actingStep_toRemove, if_pos hex]

theorem C9_witness :
    (((sweepOf 365 [rExit, rExplore 5] sExit).toRemove.foldl
        (fun a d => (Person.grieve_loss a
          ((sweepOf 365 [rExit, rExplore 5] sExit).pop.getD d defaultPerson)).1)
        ((sweepOf 365 [rExit, rExplore 5] sExit).pop.getD 1 defaultPerson))
      ∈ (step 365 [rExit, rExplore 5] sExit).agents)
    ∧ (actingStep rExit ⟨[pLow, pA], wFix, [], [], []⟩ 0 pLow).toRemove = [] ++ [0] :=
  ⟨(C9_every_removal_triggers_grief 365 [rExit, rExplore 5] sExit).1 1 (by decide) (by decide),
   (C9_every_removal_triggers_grief 365 [rExit, rExplore 5] sExit).2 rExit
     ⟨[pLow, pA], wFix, [], [], []⟩ 0 pLow (by decide)⟩

end Genesis
